import Mathlib

/-!
Shallow embedding of `excel_to_json.py` (USPSA Classifier Library converter).

Modelling conventions:
* A spreadsheet cell is `Cell`: either missing (`na`, pandas `NaN`), a string,
  a boolean, or an integer.  Numeric cells are modelled over `Int`; decimal
  (floating-point) literals are outside the model.
* A pandas `DataFrame` is a `Table`: an ordered list of named columns, each an
  ordered list of cells (row order = list order).  Columns read from an Excel
  sheet are rectangular and have pairwise distinct raw headers (pandas mangles
  duplicate headers on read), captured by `Table.WF`.
* Series operations are elementwise on the column lists.  `Series.str.upper`
  on an object-dtype series uppercases string entries and turns every
  non-string entry (booleans, numbers, and `NaN` itself) into `NaN`; this is
  `strUpper`.  `Series.fillna v` is `fillna v`.  `pd.to_numeric(errors=coerce)`
  is `toNumeric` (integer literals only).
* Console output is abstracted to the `Msg` and `Issue` inductives, one
  constructor per distinct print/warning of the script, carrying the data
  interpolated into the corresponding f-string.
* `sys.exit(n)` is an `exitCode = some n` in `RunResult`; a normal return is
  `exitCode = none` (process exit status 0).  Files written before a failure
  are recorded in `RunResult.written` (the write persists, as in the script).
-/

namespace ExcelToJson

/-- A spreadsheet / DataFrame cell.  `na` is pandas missing data (`NaN`). -/
inductive Cell where
  | na : Cell
  | str (s : String) : Cell
  | bool (b : Bool) : Cell
  | int (n : Int) : Cell
deriving DecidableEq, Repr

/-- Model of `Series.isna` for one cell. -/
def Cell.isna : Cell → Bool
  | Cell.na => true
  | _ => false

/-- A DataFrame: ordered named columns of cells. -/
structure Table where
  cols : List (String × List Cell)
deriving DecidableEq, Repr

/-- Number of rows (`len(df)`): length of the first column, 0 for no columns. -/
def Table.nRows (t : Table) : Nat :=
  match t.cols with
  | [] => 0
  | c :: _ => c.2.length

/-- Model of `df.columns` as a list of names. -/
def Table.names (t : Table) : List String := t.cols.map Prod.fst

/-- Well-formedness of a table read from an Excel sheet: rectangular and with
pairwise distinct raw headers. -/
def Table.WF (t : Table) : Prop :=
  (∀ c ∈ t.cols, c.2.length = t.nRows) ∧ t.names.Nodup

/-- First column with the given name in an association list of columns. -/
def getColAux (name : String) : List (String × List Cell) → List Cell
  | [] => []
  | c :: rest => if c.1 = name then c.2 else getColAux name rest

/-- Model of `df[name]` (the column cells; `[]` if absent). -/
def getCol (t : Table) (name : String) : List Cell :=
  getColAux name t.cols

/-- Model of `df[name] = f(df[name])`: update the named column in place. -/
def updateCol (t : Table) (name : String) (f : List Cell → List Cell) : Table :=
  ⟨t.cols.map (fun c => if c.1 = name then (c.1, f c.2) else c)⟩

/-- The fixed special-case table of `standardize_property_name`. -/
def special_cases : List (String × String) := [
  ("Indoor & No Steel", "indoorNoSteel"),
  ("10 Rounds or Less", "tenRoundsOrLess"),
  ("Has SHO / WHO", "hasShoWho"),
  ("Up Range Start", "upRangeStart"),
  ("Seated Start", "seatedStart"),
  ("Has Barricade", "hasBarricade"),
  ("Has Steel", "hasSteel"),
  ("String Count", "stringCount"),
  ("Scoring Type", "scoringType"),
  ("Wall Count", "wallCount"),
  ("Back Berm Only", "backBermOnly"),
  ("Ban State", "banState"),
  ("Mandatory Reload", "mandatoryReload"),
  ("Stand and Deliver", "standAndDeliver"),
  ("Stage Style", "stageStyle"),
  ("Round Count", "roundCount"),
  ("Stage Identifier", "stageIdentifier"),
  ("Stage Name", "stageName")]

/-- Python `str.capitalize`: first character upper-cased, the rest
lower-cased (on a list of characters). -/
def pyCapitalize : List Char → List Char
  | [] => []
  | c :: cs => c.toUpper :: cs.map Char.toLower

/-- Python `s.split(sep)` for a one-character separator: keeps empty pieces,
and the empty string splits to `[""]`. -/
def underscoreSplit : List Char → List (List Char)
  | [] => [[]]
  | c :: cs =>
    match underscoreSplit cs with
    | [] => [[]]
    | w :: ws => if c = '_' then [] :: w :: ws else (c :: w) :: ws

/-- The generic camelCase rule of `standardize_property_name` (lines 53-59):
replace every non-alphanumeric character by an underscore, split on
underscores, lower-case the first piece, capitalize-and-concatenate the
remaining non-empty pieces. -/
def genericCamel (name : List Char) : List Char :=
  let s := name.map (fun c => if c.isAlphanum then c else '_')
  match underscoreSplit s with
  | [] => []
  | w :: ws =>
      w.map Char.toLower ++ ((ws.filter (fun x => x ≠ [])).map pyCapitalize).flatten

/-- Model of `standardize_property_name`: special-case lookup, generic camelCase
fallback. -/
def standardize_property_name (name : String) : String :=
  match special_cases.lookup name with
  | some v => v
  | none => String.mk (genericCamel name.toList)

/-- One warning line collected by `validate_data` (the data interpolated into
the corresponding f-string). -/
inductive Issue where
  | missingImportant (col : String) (count : Nat)
  | missingBool (col : String) (count : Nat)
  | nonStandardBool (col : String) (count : Nat)
  | missingNum (col : String) (count : Nat)
deriving DecidableEq, Repr

def important_columns : List String :=
  ["Stage Name", "Stage Identifier", "Round Count", "Scoring Type"]

def boolean_columns : List String := [
  "Indoor", "Indoor & No Steel", "Back Berm Only", "10 Rounds or Less",
  "Ban State", "Mandatory Reload", "Stand and Deliver", "Box to Box",
  "Stage Style", "Has SHO / WHO", "Up Range Start", "Seated Start",
  "Has Barricade", "Has Steel"]

def numeric_columns : List String :=
  ["Round Count", "String Count", "Wall Count", "Width", "Depth"]

/-- Model of `Series.fillna v` on one cell. -/
def fillna (v : Cell) : Cell → Cell
  | Cell.na => v
  | c => c

/-- Python `str.upper` (ASCII): upper-case every character. -/
def pyUpper (s : String) : String := String.mk (s.data.map Char.toUpper)

/-- Model of `Series.str.upper` on one cell of an object-dtype series: strings are
upper-cased, every non-string entry (including `NaN`) becomes `NaN`. -/
def strUpper : Cell → Cell
  | Cell.str s => Cell.str (pyUpper s)
  | _ => Cell.na

/-- The final lambda of the boolean normalization (line 98):
`"YES" if (x == "YES" or x == "Y" or x is True) else "NO"`. -/
def boolFinal (c : Cell) : Cell :=
  if c = Cell.str "YES" ∨ c = Cell.str "Y" ∨ c = Cell.bool true
  then Cell.str "YES" else Cell.str "NO"

/-- Strip leading and trailing whitespace (Python `str.strip`, as the numeric
parser applies it). -/
def trimChars (l : List Char) : List Char :=
  ((l.dropWhile Char.isWhitespace).reverse.dropWhile Char.isWhitespace).reverse

/-- Parse a non-empty all-digit character list as a natural number. -/
def parseNatDigits (l : List Char) : Option Nat :=
  if l = [] then none
  else if l.all Char.isDigit then
    some (l.foldl (fun acc c => acc * 10 + (c.toNat - 48)) 0)
  else none

/-- Parse an optionally signed integer literal. -/
def parseIntChars : List Char → Option Int
  | '-' :: rest => (parseNatDigits rest).map (fun n => -(n : Int))
  | '+' :: rest => (parseNatDigits rest).map (fun n => (n : Int))
  | l => (parseNatDigits l).map (fun n => (n : Int))

/-- Model of `pd.to_numeric(errors=coerce)` on one cell, integer literals only:
unparsable entries coerce to `NaN`, booleans to 1/0. -/
def toNumeric : Cell → Cell
  | Cell.na => Cell.na
  | Cell.int n => Cell.int n
  | Cell.bool b => Cell.int (if b then 1 else 0)
  | Cell.str s =>
    match parseIntChars (trimChars s.toList) with
    | some n => Cell.int n
    | none => Cell.na

/-- The per-boolean-column body of `validate_data` (lines 81-98): warn about
missing values, fill them with `"NO"`, upper-case, warn about non-standard
values, then map everything to `"YES"`/`"NO"`. -/
def processBool (t : Table) (col : String) (acc : List Issue) : Table × List Issue :=
  if col ∈ t.names then
    let na_count := (getCol t col).countP Cell.isna
    let acc1 := if na_count > 0 then acc ++ [Issue.missingBool col na_count] else acc
    let t1 := updateCol t col (List.map (fillna (Cell.str "NO")))
    let t2 := updateCol t1 col (List.map strUpper)
    let non_standard :=
      (getCol t2 col).countP (fun c => c ≠ Cell.str "YES" ∧ c ≠ Cell.str "NO")
    let acc2 := if non_standard > 0 then acc1 ++ [Issue.nonStandardBool col non_standard] else acc1
    let t3 := updateCol t2 col (List.map boolFinal)
    (t3, acc2)
  else (t, acc)

/-- The per-numeric-column body of `validate_data` (lines 103-110): warn about
missing values, then `pd.to_numeric(errors=coerce).fillna(0).astype(int)`
(under the integer model, `astype(int)` is the identity after `fillna 0`). -/
def processNum (t : Table) (col : String) (acc : List Issue) : Table × List Issue :=
  if col ∈ t.names then
    let na_count := (getCol t col).countP Cell.isna
    let acc1 := if na_count > 0 then acc ++ [Issue.missingNum col na_count] else acc
    let t1 := updateCol t col (List.map (fun c => fillna (Cell.int 0) (toNumeric c)))
    (t1, acc1)
  else (t, acc)

/-- Lines 66-70 of `validate_data`: one warning per important column that is
present and has missing values, carrying the count of missing values. -/
def importantIssues (t : Table) : List Issue :=
  important_columns.foldl (fun acc col =>
    if col ∈ t.names ∧ (getCol t col).any Cell.isna then
      acc ++ [Issue.missingImportant col ((getCol t col).countP Cell.isna)]
    else acc) []

/-- Lines 80-98 of `validate_data`: the boolean-column pass, threading the
table and the issue list over `boolean_columns`. -/
def boolPhase (t : Table) : Table × List Issue :=
  boolean_columns.foldl (fun (p : Table × List Issue) col => processBool p.1 col p.2)
    (t, importantIssues t)

/-- Model of `validate_data` (lines 61-112): important-column warnings, boolean-column
normalization, numeric-column coercion; returns the table and the issues. -/
def validate_data (t : Table) : Table × List Issue :=
  numeric_columns.foldl (fun (p : Table × List Issue) col => processNum p.1 col p.2)
    (boolPhase t)

/-- Model of `df.rename(columns=column_mapping)` with
`column_mapping = standardize_property_name` on every column (lines 135, 143). -/
def renameCols (t : Table) : Table :=
  ⟨t.cols.map (fun c => (standardize_property_name c.1, c.2))⟩

/-- The `required_properties` list of `convert_excel_to_js` (lines 146-151). -/
def required_properties : List String := [
  "stageName", "stageIdentifier", "indoor", "indoorNoSteel", "backBermOnly",
  "tenRoundsOrLess", "banState", "roundCount", "mandatoryReload", "standAndDeliver",
  "boxToBox", "stageStyle", "hasShoWho", "upRangeStart", "seatedStart", "wallCount",
  "hasBarricade", "hasSteel", "stringCount", "scoringType", "width", "depth"]

/-- The default written for a missing required column (lines 158-165). -/
def defaultFor (prop : String) : Cell :=
  if prop ∈ ["roundCount", "stringCount", "wallCount", "width", "depth"] then Cell.int 0
  else if prop ∈ ["scoringType"] then Cell.str "COMSTOCK"
  else if prop ∈ ["stageName", "stageIdentifier"] then Cell.str "Unknown"
  else Cell.str "NO"

/-- Lines 154-165: add every required property missing from the renamed table
as a new column holding its default in every row (`df[prop] = scalar`
broadcasts the scalar over the current number of rows). -/
def backfill (t : Table) : Table :=
  required_properties.foldl (fun u prop =>
    if prop ∈ u.names then u
    else ⟨u.cols ++ [(prop, List.replicate u.nRows (defaultFor prop))]⟩) t

/-- One output record of `df.to_dict(orient=records)`: the row's cells listed
in column order.  A Python dict is built by inserting in this order, so a
duplicate column name is resolved by the LAST occurrence (see `dictGet`). -/
abbrev Rec := List (String × Cell)

/-- Row `i` of the table as a record. -/
def rowRecord (t : Table) (i : Nat) : Rec :=
  t.cols.map (fun c => (c.1, c.2.getD i Cell.na))

/-- Model of `df.to_dict(orient=records)` (line 173): one record per row, input row
order preserved. -/
def toRecords (t : Table) : List Rec :=
  (List.range t.nRows).map (rowRecord t)

/-- Model of `record[key]` with Python-dict semantics: the record dict is built by
inserting bindings in column order, so the LAST binding of a key wins. -/
def dictGet (r : Rec) (k : String) : Option Cell :=
  match r with
  | [] => none
  | p :: rest =>
    match dictGet rest k with
    | some v => some v
    | none => if p.1 = k then some p.2 else none

/-- The pure data pipeline of `convert_excel_to_js` from the freshly read
table to the serialized record list: validate, rename, backfill. -/
def convertTable (t : Table) : Table :=
  backfill (renameCols (validate_data t).1)

/-- A Python exception escaping a pipeline step. -/
inductive PyExc where
  | fileNotFound
  | zeroDivision
  | typeError
  | other (msg : String)
deriving DecidableEq, Repr

/-- The outcomes of the two I/O operations of one run: the result of
`pd.read_excel(input_file, sheet_name=Classifiers)` and the result of
`open(output_file, w)` + write.  A `fileNotFound` read models a missing input
file; a `fileNotFound` write models an output path in a non-existent
directory. -/
structure Env where
  readResult : Except PyExc Table
  writeResult : Except PyExc Unit

/-- One console print of the script, abstracted to the data it interpolates.
`errFileNotFound f` stands for the exact line `Error: File not found: <f>`
(line 201); `usage` for the usage line (line 209); `errOther e` for
`Error: <message of e>` (line 204). -/
inductive Msg where
  | banner
  | reading (file : String)
  | foundRecords (n : Nat)
  | validationIssues (issues : List Issue)
  | columnMapping (maps : List (String × String))
  | addedMissing (cols : List String)
  | success (file : String)
  | summaryCounts (total indoor steel barricade comstock virginia : Nat)
  | summaryAverage
  | errFileNotFound (file : String)
  | errOther (e : PyExc)
  | usage
  | conversionComplete
deriving DecidableEq, Repr

/-- The observable outcome of one run: console messages in order, files
written (name and serialized record array), and `some n` when `sys.exit(n)`
was called (`none`: normal return, process exit status 0). -/
structure RunResult where
  msgs : List Msg
  written : List (String × List Rec)
  exitCode : Option Nat
deriving Repr

/-- The `except` clauses of `convert_excel_to_js` (lines 200-205):
`FileNotFoundError` prints `Error: File not found: <input_file>` — note the
INPUT path, whatever raised the exception — and every handler exits with 1.
Messages printed and files written before the exception are kept. -/
def excHandler (input : String) (msgs : List Msg) (written : List (String × List Rec))
    (e : PyExc) : RunResult :=
  match e with
  | PyExc.fileNotFound => ⟨msgs ++ [Msg.errFileNotFound input], written, some 1⟩
  | e => ⟨msgs ++ [Msg.errOther e], written, some 1⟩

/-- Is the roundCount entry of a record a string (making Python `sum` raise
`TypeError`)? -/
def hasStrRoundCount (r : Rec) : Bool :=
  match dictGet r "roundCount" with
  | some (Cell.str _) => true
  | _ => false

/-- The progress messages printed between a successful read and the write
(lines 117-170): banner, reading, record count, validation issues (only when
non-empty), sorted column mapping, added-defaults report (only when
non-empty). -/
def progressMsgs (input : String) (df : Table) : List Msg :=
  [Msg.banner, Msg.reading input, Msg.foundRecords df.nRows]
  ++ (if (validate_data df).2 ≠ [] then [Msg.validationIssues (validate_data df).2] else [])
  ++ [Msg.columnMapping ((validate_data df).1.names.map
        (fun c => (c, standardize_property_name c)))]
  ++ (if required_properties.filter (fun p => p ∉ (renameCols (validate_data df).1).names) ≠ []
      then [Msg.addedMissing (required_properties.filter
              (fun p => p ∉ (renameCols (validate_data df).1).names))]
      else [])

/-- The body of the `try` block after a successful `pd.read_excel`
(lines 123-198).  The summary average
`sum(item[roundCount] for item in data) / len(data)` (line 198) raises
`TypeError` when some roundCount value is a string, and `ZeroDivisionError`
when the record list is empty; every required key the summary reads exists in
every record because of the backfill, so no `KeyError` can occur. -/
def convertRun (input output_file : String) (df : Table) (w : Except PyExc Unit) : RunResult :=
  let msgs4 := progressMsgs input df
  let data := toRecords (backfill (renameCols (validate_data df).1))
  match w with
  | Except.error e => excHandler input msgs4 [] e
  | Except.ok _ =>
    let written := [(output_file, data)]
    let msgs5 := msgs4 ++ [Msg.success output_file]
    let counts := Msg.summaryCounts data.length
      (data.countP (fun r => dictGet r "indoor" == some (Cell.str "YES")))
      (data.countP (fun r => dictGet r "hasSteel" == some (Cell.str "YES")))
      (data.countP (fun r => dictGet r "hasBarricade" == some (Cell.str "YES")))
      (data.countP (fun r => dictGet r "scoringType" == some (Cell.str "COMSTOCK")))
      (data.countP (fun r => dictGet r "scoringType" == some (Cell.str "VIRGINIA")))
    let msgs6 := msgs5 ++ [counts]
    if data.any hasStrRoundCount then
      excHandler input msgs6 written PyExc.typeError
    else if data.length = 0 then
      excHandler input msgs6 written PyExc.zeroDivision
    else
      ⟨msgs6 ++ [Msg.summaryAverage], written, none⟩

/-- Model of `convert_excel_to_js` (lines 114-205): read, then the conversion body,
with the two `except` clauses around everything. -/
def convert_excel_to_js (input output_file : String) (env : Env) : RunResult :=
  match env.readResult with
  | Except.error e => excHandler input [Msg.banner, Msg.reading input] [] e
  | Except.ok df => convertRun input output_file df env.writeResult

/-- The `__main__` block (lines 207-216): exactly two positional arguments
(`len(sys.argv) == 3`) or print usage and exit 1; on a normal return of the
converter, print the completion line. -/
def mainEntry (argv : List String) (env : Env) : RunResult :=
  if argv.length ≠ 3 then ⟨[Msg.usage], [], some 1⟩
  else
    let r := convert_excel_to_js (argv.getD 1 "") (argv.getD 2 "") env
    match r.exitCode with
    | some _ => r
    | none => ⟨r.msgs ++ [Msg.conversionComplete], r.written, none⟩

/-- The summary-count line computed for the serialized data (lines 191-197). -/
def countsMsg (data : List Rec) : Msg :=
  Msg.summaryCounts data.length
    (data.countP (fun r => dictGet r "indoor" == some (Cell.str "YES")))
    (data.countP (fun r => dictGet r "hasSteel" == some (Cell.str "YES")))
    (data.countP (fun r => dictGet r "hasBarricade" == some (Cell.str "YES")))
    (data.countP (fun r => dictGet r "scoringType" == some (Cell.str "COMSTOCK")))
    (data.countP (fun r => dictGet r "scoringType" == some (Cell.str "VIRGINIA")))


/-! ## Concrete tables and environments used by counterexamples and witnesses -/

/-- A one-row table whose `Stage Name` column holds a missing cell. -/
def tNaStage : Table := ⟨[("Stage Name", [Cell.na])]⟩

/-- The run of the converter on `tNaStage` with both I/O operations
succeeding. -/
def runNaStage : RunResult :=
  convert_excel_to_js "in.xlsx" "out.js" ⟨Except.ok tNaStage, Except.ok ()⟩

/-- A one-row table with a single string cell in `Stage Name`. -/
def tOneRow : Table := ⟨[("Stage Name", [Cell.str "A"])]⟩

/-- A two-row table with two string cells in `Stage Name`. -/
def tTwoRows : Table := ⟨[("Stage Name", [Cell.str "A", Cell.str "B"])]⟩

/-- A table with a header row but zero data rows. -/
def tEmpty : Table := ⟨[("Stage Name", [])]⟩

/-! ## Infrastructure lemmas -/

theorem names_updateCol (t : Table) (n : String) (f : List Cell → List Cell) :
    (updateCol t n f).names = t.names := by
  obtain ⟨cols⟩ := t
  simp only [Table.names, updateCol]
  induction cols with
  | nil => rfl
  | cons c rest ih =>
    simp only [List.map_cons, ih]
    split <;> rfl

theorem getColAux_map_update (n : String) (f : List Cell → List Cell)
    (cols : List (String × List Cell)) (h : ∃ x ∈ cols, x.1 = n) :
    getColAux n (cols.map (fun c => if c.1 = n then (c.1, f c.2) else c))
      = f (getColAux n cols) := by
  induction cols with
  | nil => simp at h
  | cons c rest ih =>
    by_cases hc : c.1 = n
    · simp [getColAux, hc]
    · simp only [List.map_cons, if_neg hc, getColAux, hc, if_false]
      apply ih
      rcases h with ⟨x, hx, hxn⟩
      rcases List.mem_cons.mp hx with hx | hx
      · exact absurd (hx ▸ hxn) hc
      · exact ⟨x, hx, hxn⟩

theorem getCol_updateCol_self (t : Table) (n : String) (f : List Cell → List Cell)
    (h : n ∈ t.names) : getCol (updateCol t n f) n = f (getCol t n) := by
  obtain ⟨cols⟩ := t
  simp only [Table.names, List.mem_map] at h
  exact getColAux_map_update n f cols h

theorem getColAux_map_update_ne (n m : String) (f : List Cell → List Cell)
    (cols : List (String × List Cell)) (h : m ≠ n) :
    getColAux m (cols.map (fun c => if c.1 = n then (c.1, f c.2) else c))
      = getColAux m cols := by
  induction cols with
  | nil => rfl
  | cons c rest ih =>
    simp only [List.map_cons]
    by_cases hc : c.1 = n
    · have hcm : c.1 ≠ m := fun hh => h (hh ▸ hc)
      rw [if_pos hc]
      show (if c.1 = m then f c.2 else _) = _
      rw [if_neg hcm, ih]
      show _ = getColAux m (c :: rest)
      rw [getColAux, if_neg hcm]
    · rw [if_neg hc]
      by_cases hcm : c.1 = m
      · show (if c.1 = m then c.2 else _) = _
        rw [if_pos hcm]
        show _ = getColAux m (c :: rest)
        rw [getColAux, if_pos hcm]
      · show (if c.1 = m then c.2 else _) = _
        rw [if_neg hcm, ih]
        show _ = getColAux m (c :: rest)
        rw [getColAux, if_neg hcm]

theorem getCol_updateCol_ne (t : Table) (n m : String) (f : List Cell → List Cell)
    (h : m ≠ n) : getCol (updateCol t n f) m = getCol t m := by
  obtain ⟨cols⟩ := t
  exact getColAux_map_update_ne n m f cols h

theorem colLengths_updateCol (t : Table) (n : String) (g : Cell → Cell) :
    (updateCol t n (List.map g)).cols.map (fun c => c.2.length)
      = t.cols.map (fun c => c.2.length) := by
  obtain ⟨cols⟩ := t
  simp only [updateCol]
  induction cols with
  | nil => rfl
  | cons c rest ih =>
    simp only [List.map_cons, ih]
    split <;> simp

theorem nRows_eq_of_colLengths {u t : Table}
    (hn : u.names = t.names)
    (h : u.cols.map (fun c => c.2.length) = t.cols.map (fun c => c.2.length)) :
    u.nRows = t.nRows := by
  obtain ⟨cols⟩ := t
  obtain ⟨cols'⟩ := u
  cases cols with
  | nil =>
    cases cols' with
    | nil => rfl
    | cons c r => simp [Table.names] at hn
  | cons c r =>
    cases cols' with
    | nil => simp [Table.names] at hn
    | cons c' r' =>
      simp only [List.map_cons, List.cons.injEq] at h
      simp [Table.nRows, h.1]


/-- The end-to-end per-cell boolean normalization of `validate_data`:
fill missing with `"NO"`, upper-case (non-strings become missing), then the
final `"YES"`/`"NO"` lambda. -/
def normBool (c : Cell) : Cell := boolFinal (strUpper (fillna (Cell.str "NO") c))

/-- The end-to-end per-cell numeric normalization of `validate_data`:
`to_numeric(errors=coerce).fillna(0)`. -/
def normNum (c : Cell) : Cell := fillna (Cell.int 0) (toNumeric c)

theorem processBool_names (t : Table) (col : String) (acc : List Issue) :
    (processBool t col acc).1.names = t.names := by
  unfold processBool
  split
  · simp only [names_updateCol]
  · rfl

theorem processBool_colLengths (t : Table) (col : String) (acc : List Issue) :
    (processBool t col acc).1.cols.map (fun c => c.2.length)
      = t.cols.map (fun c => c.2.length) := by
  unfold processBool
  split
  · simp only [colLengths_updateCol]
  · rfl

theorem processBool_getCol_self (t : Table) (col : String) (acc : List Issue)
    (hin : col ∈ t.names) :
    getCol (processBool t col acc).1 col = (getCol t col).map normBool := by
  unfold processBool
  rw [if_pos hin]
  simp only
  rw [getCol_updateCol_self _ _ _ (by rw [names_updateCol, names_updateCol]; exact hin),
      getCol_updateCol_self _ _ _ (by rw [names_updateCol]; exact hin),
      getCol_updateCol_self _ _ _ hin]
  simp [List.map_map, normBool, Function.comp]

theorem processBool_getCol_ne (t : Table) (col m : String) (acc : List Issue)
    (h : m ≠ col) :
    getCol (processBool t col acc).1 m = getCol t m := by
  unfold processBool
  split
  · simp only
    rw [getCol_updateCol_ne _ _ _ _ h, getCol_updateCol_ne _ _ _ _ h,
        getCol_updateCol_ne _ _ _ _ h]
  · rfl

theorem processBool_issues (t : Table) (col : String) (acc : List Issue) :
    ∃ e, (processBool t col acc).2 = acc ++ e ∧
      ∀ i ∈ e, (∃ k, i = Issue.missingBool col k) ∨ (∃ k, i = Issue.nonStandardBool col k) := by
  unfold processBool
  split
  · simp only
    split <;> split
    · exact ⟨_, by rw [List.append_assoc], by
        intro i hi
        rcases List.mem_append.mp hi with hi | hi <;>
          simp_all⟩
    · exact ⟨_, rfl, by intro i hi; simp_all⟩
    · exact ⟨_, rfl, by intro i hi; simp_all⟩
    · exact ⟨[], by simp, by simp⟩
  · exact ⟨[], by simp, by simp⟩

theorem processNum_names (t : Table) (col : String) (acc : List Issue) :
    (processNum t col acc).1.names = t.names := by
  unfold processNum
  split
  · simp only [names_updateCol]
  · rfl

theorem processNum_colLengths (t : Table) (col : String) (acc : List Issue) :
    (processNum t col acc).1.cols.map (fun c => c.2.length)
      = t.cols.map (fun c => c.2.length) := by
  unfold processNum
  split
  · simp only [colLengths_updateCol]
  · rfl

theorem processNum_getCol_self (t : Table) (col : String) (acc : List Issue)
    (hin : col ∈ t.names) :
    getCol (processNum t col acc).1 col = (getCol t col).map normNum := by
  unfold processNum
  rw [if_pos hin]
  simp only
  rw [getCol_updateCol_self _ _ _ hin]
  rfl

theorem processNum_getCol_ne (t : Table) (col m : String) (acc : List Issue)
    (h : m ≠ col) :
    getCol (processNum t col acc).1 m = getCol t m := by
  unfold processNum
  split
  · simp only
    rw [getCol_updateCol_ne _ _ _ _ h]
  · rfl

theorem processNum_issues_self (t : Table) (col : String) (acc : List Issue)
    (hin : col ∈ t.names) :
    (processNum t col acc).2 = acc ++
      (if 0 < (getCol t col).countP Cell.isna
       then [Issue.missingNum col ((getCol t col).countP Cell.isna)] else []) := by
  unfold processNum
  rw [if_pos hin]
  simp only
  split <;> simp_all

theorem processNum_issues (t : Table) (col : String) (acc : List Issue) :
    ∃ e, (processNum t col acc).2 = acc ++ e ∧
      ∀ i ∈ e, ∃ k, i = Issue.missingNum col k := by
  unfold processNum
  split
  · simp only
    split
    · exact ⟨_, rfl, by intro i hi; simp_all⟩
    · exact ⟨[], by simp, by simp⟩
  · exact ⟨[], by simp, by simp⟩


theorem boolFold_names (L : List String) :
    ∀ (t : Table) (acc : List Issue),
    ((L.foldl (fun p col => processBool p.1 col p.2) (t, acc)).1).names = t.names := by
  induction L with
  | nil => intro t acc; rfl
  | cons c L ih =>
    intro t acc
    simp only [List.foldl_cons]
    exact (ih (processBool t c acc).1 (processBool t c acc).2).trans
      (processBool_names t c acc)


theorem boolFold_colLengths (L : List String) :
    ∀ (t : Table) (acc : List Issue),
    ((L.foldl (fun p col => processBool p.1 col p.2) (t, acc)).1).cols.map (fun c => c.2.length)
      = t.cols.map (fun c => c.2.length) := by
  induction L with
  | nil => intro t acc; rfl
  | cons c L ih =>
    intro t acc
    simp only [List.foldl_cons]
    exact (ih (processBool t c acc).1 (processBool t c acc).2).trans
      (processBool_colLengths t c acc)

theorem boolFold_getCol_not_mem (L : List String) :
    ∀ (t : Table) (acc : List Issue) (col : String), col ∉ L →
    getCol ((L.foldl (fun p col => processBool p.1 col p.2) (t, acc)).1) col = getCol t col := by
  induction L with
  | nil => intro t acc col _; rfl
  | cons c L ih =>
    intro t acc col h
    simp only [List.foldl_cons]
    have hne : col ≠ c := fun hh => h (hh ▸ List.mem_cons_self c L)
    have hL : col ∉ L := fun hh => h (List.mem_cons_of_mem c hh)
    exact (ih (processBool t c acc).1 (processBool t c acc).2 col hL).trans
      (processBool_getCol_ne t c col acc hne)

theorem boolFold_getCol_mem (L : List String) :
    ∀ (t : Table) (acc : List Issue) (col : String), L.Nodup → col ∈ L → col ∈ t.names →
    getCol ((L.foldl (fun p col => processBool p.1 col p.2) (t, acc)).1) col
      = (getCol t col).map normBool := by
  induction L with
  | nil => intro t acc col _ h _; simp at h
  | cons c L ih =>
    intro t acc col hnd hmem hin
    simp only [List.foldl_cons]
    rcases List.mem_cons.mp hmem with hh | hh
    · subst hh
      have hnotL : col ∉ L := (List.nodup_cons.mp hnd).1
      exact (boolFold_getCol_not_mem L (processBool t col acc).1 (processBool t col acc).2
          col hnotL).trans (processBool_getCol_self t col acc hin)
    · have hne : col ≠ c := fun he => (List.nodup_cons.mp hnd).1 (he ▸ hh)
      have hin' : col ∈ (processBool t c acc).1.names := by
        rw [processBool_names]; exact hin
      have := ih (processBool t c acc).1 (processBool t c acc).2 col
        (List.nodup_cons.mp hnd).2 hh hin'
      rw [this, processBool_getCol_ne t c col acc hne]

theorem boolFold_issues (L : List String) :
    ∀ (t : Table) (acc : List Issue),
    ∃ e, (L.foldl (fun p col => processBool p.1 col p.2) (t, acc)).2 = acc ++ e ∧
      ∀ i ∈ e, ∃ c ∈ L,
        (∃ k, i = Issue.missingBool c k) ∨ (∃ k, i = Issue.nonStandardBool c k) := by
  induction L with
  | nil => intro t acc; exact ⟨[], by simp, by simp⟩
  | cons c L ih =>
    intro t acc
    simp only [List.foldl_cons]
    obtain ⟨e1, he1, hs1⟩ := processBool_issues t c acc
    obtain ⟨e2, he2, hs2⟩ := ih (processBool t c acc).1 (processBool t c acc).2
    refine ⟨e1 ++ e2, ?_, ?_⟩
    · rw [he2, he1, List.append_assoc]
    · intro i hi
      rcases List.mem_append.mp hi with hi | hi
      · exact ⟨c, List.mem_cons_self c L, hs1 i hi⟩
      · obtain ⟨c', hc', hk⟩ := hs2 i hi
        exact ⟨c', List.mem_cons_of_mem c hc', hk⟩

theorem numFold_names (L : List String) :
    ∀ (t : Table) (acc : List Issue),
    ((L.foldl (fun p col => processNum p.1 col p.2) (t, acc)).1).names = t.names := by
  induction L with
  | nil => intro t acc; rfl
  | cons c L ih =>
    intro t acc
    simp only [List.foldl_cons]
    exact (ih (processNum t c acc).1 (processNum t c acc).2).trans
      (processNum_names t c acc)

theorem numFold_colLengths (L : List String) :
    ∀ (t : Table) (acc : List Issue),
    ((L.foldl (fun p col => processNum p.1 col p.2) (t, acc)).1).cols.map (fun c => c.2.length)
      = t.cols.map (fun c => c.2.length) := by
  induction L with
  | nil => intro t acc; rfl
  | cons c L ih =>
    intro t acc
    simp only [List.foldl_cons]
    exact (ih (processNum t c acc).1 (processNum t c acc).2).trans
      (processNum_colLengths t c acc)

theorem numFold_getCol_not_mem (L : List String) :
    ∀ (t : Table) (acc : List Issue) (col : String), col ∉ L →
    getCol ((L.foldl (fun p col => processNum p.1 col p.2) (t, acc)).1) col = getCol t col := by
  induction L with
  | nil => intro t acc col _; rfl
  | cons c L ih =>
    intro t acc col h
    simp only [List.foldl_cons]
    have hne : col ≠ c := fun hh => h (hh ▸ List.mem_cons_self c L)
    have hL : col ∉ L := fun hh => h (List.mem_cons_of_mem c hh)
    exact (ih (processNum t c acc).1 (processNum t c acc).2 col hL).trans
      (processNum_getCol_ne t c col acc hne)

theorem numFold_getCol_mem (L : List String) :
    ∀ (t : Table) (acc : List Issue) (col : String), L.Nodup → col ∈ L → col ∈ t.names →
    getCol ((L.foldl (fun p col => processNum p.1 col p.2) (t, acc)).1) col
      = (getCol t col).map normNum := by
  induction L with
  | nil => intro t acc col _ h _; simp at h
  | cons c L ih =>
    intro t acc col hnd hmem hin
    simp only [List.foldl_cons]
    rcases List.mem_cons.mp hmem with hh | hh
    · subst hh
      have hnotL : col ∉ L := (List.nodup_cons.mp hnd).1
      exact (numFold_getCol_not_mem L (processNum t col acc).1 (processNum t col acc).2
          col hnotL).trans (processNum_getCol_self t col acc hin)
    · have hne : col ≠ c := fun he => (List.nodup_cons.mp hnd).1 (he ▸ hh)
      have hin' : col ∈ (processNum t c acc).1.names := by
        rw [processNum_names]; exact hin
      have := ih (processNum t c acc).1 (processNum t c acc).2 col
        (List.nodup_cons.mp hnd).2 hh hin'
      rw [this, processNum_getCol_ne t c col acc hne]

theorem numFold_issues (L : List String) :
    ∀ (t : Table) (acc : List Issue),
    ∃ e, (L.foldl (fun p col => processNum p.1 col p.2) (t, acc)).2 = acc ++ e ∧
      ∀ i ∈ e, ∃ c ∈ L, ∃ k, i = Issue.missingNum c k := by
  induction L with
  | nil => intro t acc; exact ⟨[], by simp, by simp⟩
  | cons c L ih =>
    intro t acc
    simp only [List.foldl_cons]
    obtain ⟨e1, he1, hs1⟩ := processNum_issues t c acc
    obtain ⟨e2, he2, hs2⟩ := ih (processNum t c acc).1 (processNum t c acc).2
    refine ⟨e1 ++ e2, ?_, ?_⟩
    · rw [he2, he1, List.append_assoc]
    · intro i hi
      rcases List.mem_append.mp hi with hi | hi
      · exact ⟨c, List.mem_cons_self c L, hs1 i hi⟩
      · obtain ⟨c', hc', hk⟩ := hs2 i hi
        exact ⟨c', List.mem_cons_of_mem c hc', hk⟩


theorem numFold_missingNum_not_mem (L : List String) (t : Table) (acc : List Issue)
    (col : String) (k : Nat) (h : col ∉ L) :
    (Issue.missingNum col k ∈ (L.foldl (fun p col => processNum p.1 col p.2) (t, acc)).2)
      ↔ Issue.missingNum col k ∈ acc := by
  obtain ⟨e, he, hs⟩ := numFold_issues L t acc
  rw [he, List.mem_append]
  constructor
  · rintro (hi | hi)
    · exact hi
    · obtain ⟨c', hc', k', hk⟩ := hs _ hi
      cases hk
      exact absurd hc' h
  · exact Or.inl

theorem numFold_missingNum_mem (L : List String) :
    ∀ (t : Table) (acc : List Issue) (col : String) (k : Nat),
    L.Nodup → col ∈ L → col ∈ t.names →
    ((Issue.missingNum col k ∈ (L.foldl (fun p col => processNum p.1 col p.2) (t, acc)).2)
      ↔ (Issue.missingNum col k ∈ acc ∨
          (k = (getCol t col).countP Cell.isna ∧ 0 < (getCol t col).countP Cell.isna))) := by
  induction L with
  | nil => intro t acc col k _ h _; simp at h
  | cons c L ih =>
    intro t acc col k hnd hmem hin
    simp only [List.foldl_cons]
    rcases List.mem_cons.mp hmem with hh | hh
    · subst hh
      have hnotL : col ∉ L := (List.nodup_cons.mp hnd).1
      rw [numFold_missingNum_not_mem L _ _ _ _ hnotL]
      rw [show (processNum t col acc).2
            = acc ++ (if 0 < (getCol t col).countP Cell.isna
              then [Issue.missingNum col ((getCol t col).countP Cell.isna)] else [])
          from processNum_issues_self t col acc hin]
      rw [List.mem_append]
      constructor
      · rintro (hi | hi)
        · exact Or.inl hi
        · right
          split at hi
          · simp only [List.mem_singleton] at hi
            cases hi
            exact ⟨rfl, by assumption⟩
          · simp at hi
      · rintro (hi | hi)
        · exact Or.inl hi
        · right
          rcases hi with ⟨rfl, hpos⟩
          rw [if_pos hpos]
          exact List.mem_singleton.mpr rfl
    · have hne : col ≠ c := fun he => (List.nodup_cons.mp hnd).1 (he ▸ hh)
      have hin' : col ∈ (processNum t c acc).1.names := by
        rw [processNum_names]; exact hin
      rw [ih (processNum t c acc).1 (processNum t c acc).2 col k
        (List.nodup_cons.mp hnd).2 hh hin']
      rw [processNum_getCol_ne t c col acc hne]
      obtain ⟨e1, he1, hs1⟩ := processNum_issues t c acc
      rw [he1, List.mem_append]
      constructor
      · rintro (⟨hi | hi⟩ | hi)
        · exact Or.inl hi
        · obtain ⟨k', hk⟩ := hs1 _ hi
          cases hk
          exact absurd rfl hne
        · exact Or.inr hi
      · rintro (hi | hi)
        · exact Or.inl (Or.inl hi)
        · exact Or.inr hi

theorem importantFold_issues (L : List String) (t : Table) :
    ∀ (acc : List Issue),
    ∀ i ∈ (L.foldl (fun acc col =>
        if col ∈ t.names ∧ (getCol t col).any Cell.isna then
          acc ++ [Issue.missingImportant col ((getCol t col).countP Cell.isna)]
        else acc) acc),
      i ∈ acc ∨ ∃ c k, i = Issue.missingImportant c k := by
  induction L with
  | nil => intro acc i hi; exact Or.inl hi
  | cons c L ih =>
    intro acc i hi
    simp only [List.foldl_cons] at hi
    rcases ih _ i hi with hi' | hi'
    · split at hi'
      · rcases List.mem_append.mp hi' with h | h
        · exact Or.inl h
        · simp only [List.mem_singleton] at h
          exact Or.inr ⟨c, _, h⟩
      · exact Or.inl hi'
    · exact Or.inr hi'


set_option maxHeartbeats 2000000 in
theorem bool_num_disjoint : ∀ c ∈ boolean_columns, c ∉ numeric_columns := by decide

set_option maxHeartbeats 2000000 in
theorem num_bool_disjoint : ∀ c ∈ numeric_columns, c ∉ boolean_columns := by decide

set_option maxHeartbeats 2000000 in
theorem boolean_columns_nodup : boolean_columns.Nodup := by decide

set_option maxHeartbeats 2000000 in
theorem numeric_columns_nodup : numeric_columns.Nodup := by decide

theorem boolPhase_names (t : Table) : (boolPhase t).1.names = t.names := by
  unfold boolPhase
  exact boolFold_names boolean_columns t (importantIssues t)

theorem boolPhase_colLengths (t : Table) :
    (boolPhase t).1.cols.map (fun c => c.2.length) = t.cols.map (fun c => c.2.length) := by
  unfold boolPhase
  exact boolFold_colLengths boolean_columns t (importantIssues t)

theorem boolPhase_getCol_not_mem (t : Table) (col : String) (h : col ∉ boolean_columns) :
    getCol (boolPhase t).1 col = getCol t col := by
  unfold boolPhase
  exact boolFold_getCol_not_mem boolean_columns t (importantIssues t) col h

theorem boolPhase_getCol_mem (t : Table) (col : String)
    (h : col ∈ boolean_columns) (hin : col ∈ t.names) :
    getCol (boolPhase t).1 col = (getCol t col).map normBool := by
  unfold boolPhase
  exact boolFold_getCol_mem boolean_columns t (importantIssues t) col
    boolean_columns_nodup h hin

theorem importantIssues_shape (t : Table) :
    ∀ i ∈ importantIssues t, ∃ c k, i = Issue.missingImportant c k := by
  intro i hi
  rcases importantFold_issues important_columns t [] i hi with h | h
  · simp at h
  · exact h

theorem boolPhase_no_missingNum (t : Table) (col : String) (k : Nat) :
    Issue.missingNum col k ∉ (boolPhase t).2 := by
  unfold boolPhase
  intro hmem
  obtain ⟨e, he, hs⟩ := boolFold_issues boolean_columns t (importantIssues t)
  rw [he, List.mem_append] at hmem
  rcases hmem with hmem | hmem
  · obtain ⟨c, k', hk⟩ := importantIssues_shape t _ hmem
    exact absurd hk (by simp)
  · obtain ⟨c', _, hk⟩ := hs _ hmem
    rcases hk with ⟨k', hk⟩ | ⟨k', hk⟩ <;> exact absurd hk (by simp)

theorem validate_names (t : Table) : (validate_data t).1.names = t.names := by
  unfold validate_data
  have hmain := numFold_names numeric_columns (boolPhase t).1 (boolPhase t).2
  rw [hmain]
  exact boolPhase_names t

theorem validate_colLengths (t : Table) :
    (validate_data t).1.cols.map (fun c => c.2.length) = t.cols.map (fun c => c.2.length) := by
  unfold validate_data
  have hmain := numFold_colLengths numeric_columns (boolPhase t).1 (boolPhase t).2
  rw [hmain]
  exact boolPhase_colLengths t

theorem validate_nRows (t : Table) : (validate_data t).1.nRows = t.nRows :=
  nRows_eq_of_colLengths (validate_names t) (validate_colLengths t)

theorem validate_getCol_untouched (t : Table) (col : String)
    (h1 : col ∉ boolean_columns) (h2 : col ∉ numeric_columns) :
    getCol (validate_data t).1 col = getCol t col := by
  unfold validate_data
  have hmain := numFold_getCol_not_mem numeric_columns (boolPhase t).1 (boolPhase t).2 col h2
  rw [hmain]
  exact boolPhase_getCol_not_mem t col h1

theorem validate_getCol_bool (t : Table) (col : String)
    (h : col ∈ boolean_columns) (hin : col ∈ t.names) :
    getCol (validate_data t).1 col = (getCol t col).map normBool := by
  unfold validate_data
  have hmain := numFold_getCol_not_mem numeric_columns (boolPhase t).1 (boolPhase t).2 col
    (bool_num_disjoint col h)
  rw [hmain]
  exact boolPhase_getCol_mem t col h hin

theorem validate_getCol_num (t : Table) (col : String)
    (h : col ∈ numeric_columns) (hin : col ∈ t.names) :
    getCol (validate_data t).1 col = (getCol t col).map normNum := by
  unfold validate_data
  have hin' : col ∈ (boolPhase t).1.names := by rw [boolPhase_names]; exact hin
  have hmain := numFold_getCol_mem numeric_columns (boolPhase t).1 (boolPhase t).2 col
    numeric_columns_nodup h hin'
  rw [hmain, boolPhase_getCol_not_mem t col (num_bool_disjoint col h)]

theorem validate_missingNum_iff (t : Table) (col : String) (k : Nat)
    (h : col ∈ numeric_columns) (hin : col ∈ t.names) :
    (Issue.missingNum col k ∈ (validate_data t).2 ↔
      (k = (getCol t col).countP Cell.isna ∧ 0 < (getCol t col).countP Cell.isna)) := by
  unfold validate_data
  have hin' : col ∈ (boolPhase t).1.names := by rw [boolPhase_names]; exact hin
  rw [numFold_missingNum_mem numeric_columns (boolPhase t).1 (boolPhase t).2 col k
    numeric_columns_nodup h hin']
  rw [boolPhase_getCol_not_mem t col (num_bool_disjoint col h)]
  constructor
  · rintro (hmem | hres)
    · exact absurd hmem (boolPhase_no_missingNum t col k)
    · exact hres
  · exact Or.inr

theorem renameCols_names (t : Table) :
    (renameCols t).names = t.names.map standardize_property_name := by
  simp [renameCols, Table.names, List.map_map]

theorem renameCols_colLengths (t : Table) :
    (renameCols t).cols.map (fun c => c.2.length) = t.cols.map (fun c => c.2.length) := by
  simp [renameCols, List.map_map]

theorem renameCols_nRows (t : Table) : (renameCols t).nRows = t.nRows := by
  obtain ⟨cols⟩ := t
  cases cols <;> rfl

theorem nRows_append_single (t : Table) (p : String) (cs : List Cell)
    (h : cs.length = t.nRows) :
    (Table.mk (t.cols ++ [(p, cs)])).nRows = t.nRows := by
  obtain ⟨cols⟩ := t
  cases cols with
  | nil => simpa [Table.nRows] using h
  | cons c rest => rfl

theorem names_append (t : Table) (l : List (String × List Cell)) :
    (Table.mk (t.cols ++ l)).names = t.names ++ l.map Prod.fst := by
  simp [Table.names]

theorem backfillFold_eq (L : List String) (hL : L.Nodup) : ∀ (t : Table),
    L.foldl (fun u prop =>
      if prop ∈ u.names then u
      else ⟨u.cols ++ [(prop, List.replicate u.nRows (defaultFor prop))]⟩) t
    = ⟨t.cols ++ (L.filter (fun q => q ∉ t.names)).map
        (fun q => (q, List.replicate t.nRows (defaultFor q)))⟩ := by
  induction L with
  | nil =>
    intro t
    obtain ⟨cols⟩ := t
    simp
  | cons p L ih =>
    intro t
    have hpL : p ∉ L := (List.nodup_cons.mp hL).1
    have hLnd : L.Nodup := (List.nodup_cons.mp hL).2
    simp only [List.foldl_cons]
    by_cases hp : p ∈ t.names
    · rw [if_pos hp, ih hLnd t]
      congr 1
      rw [List.filter_cons]
      simp [hp]
    · rw [if_neg hp]
      set u : Table := ⟨t.cols ++ [(p, List.replicate t.nRows (defaultFor p))]⟩ with hu
      have hun : u.nRows = t.nRows :=
        nRows_append_single t p _ (List.length_replicate _ _)
      have hunames : u.names = t.names ++ [p] := names_append t _
      rw [ih hLnd u]
      have hfilter : L.filter (fun q => q ∉ u.names) = L.filter (fun q => q ∉ t.names) := by
        apply List.filter_congr
        intro q hq
        have hqp : q ≠ p := fun he => hpL (he ▸ hq)
        simp [hunames, hqp]
      rw [hfilter, hun]
      rw [List.filter_cons]
      simp [hu, hp]

theorem backfill_eq (t : Table) :
    (backfill t).cols = t.cols ++ (required_properties.filter (fun q => q ∉ t.names)).map
        (fun q => (q, List.replicate t.nRows (defaultFor q))) := by
  have hnd : required_properties.Nodup := by decide
  rw [show backfill t = _ from backfillFold_eq required_properties hnd t]

theorem table_nRows_headD (t : Table) : t.nRows = (t.cols.headD ("", [])).2.length := by
  obtain ⟨cols⟩ := t
  cases cols <;> rfl

theorem backfill_names (t : Table) :
    (backfill t).names = t.names ++ (required_properties.filter (fun q => q ∉ t.names)) := by
  show (backfill t).cols.map Prod.fst = _
  rw [backfill_eq]
  simp only [Table.names, List.map_append, List.map_map]
  rw [show (Prod.fst ∘ fun q => (q, List.replicate t.nRows (defaultFor q))) = id from rfl,
    List.map_id]

theorem required_mem_backfill_names (t : Table) (p : String)
    (hp : p ∈ required_properties) : p ∈ (backfill t).names := by
  rw [backfill_names, List.mem_append]
  by_cases h : p ∈ t.names
  · exact Or.inl h
  · exact Or.inr (List.mem_filter.mpr ⟨hp, by simpa using h⟩)

theorem backfill_nRows (t : Table) : (backfill t).nRows = t.nRows := by
  rw [table_nRows_headD (backfill t), backfill_eq]
  obtain ⟨cols⟩ := t
  cases cols with
  | cons c rest => rfl
  | nil =>
    simp only [List.nil_append]
    rcases hf : ((required_properties.filter (fun q => q ∉ Table.names ⟨[]⟩))) with _ | ⟨q, qs⟩
    · rfl
    · simp [Table.nRows]

theorem dictGet_append (a b : Rec) (k : String) :
    dictGet (a ++ b) k =
      match dictGet b k with
      | some v => some v
      | none => dictGet a k := by
  induction a with
  | nil =>
    simp only [List.nil_append]
    cases dictGet b k <;> rfl
  | cons p a ih =>
    show (match dictGet (a ++ b) k with
          | some v => some v
          | none => if p.1 = k then some p.2 else none) = _
    rw [ih]
    cases hb : dictGet b k <;> rfl

theorem dictGet_none_of_not_mem (r : Rec) (k : String) (h : k ∉ r.map Prod.fst) :
    dictGet r k = none := by
  induction r with
  | nil => rfl
  | cons p rest ih =>
    have h1 : p.1 ≠ k := fun he => h (by simp [he])
    have h2 : k ∉ rest.map Prod.fst := fun hm => h (by simp [hm])
    show (match dictGet rest k with
          | some v => some v
          | none => if p.1 = k then some p.2 else none) = none
    rw [ih h2, if_neg h1]

theorem dictGet_isSome_of_mem (r : Rec) (k : String) (h : k ∈ r.map Prod.fst) :
    (dictGet r k).isSome := by
  induction r with
  | nil => simp at h
  | cons p rest ih =>
    show (match dictGet rest k with
          | some v => some v
          | none => if p.1 = k then some p.2 else none).isSome
    rcases hr : dictGet rest k with _ | v
    · simp only
      rcases List.mem_map.mp h with ⟨x, hx, hxk⟩
      rcases List.mem_cons.mp hx with hx | hx
      · rw [if_pos (hx ▸ hxk)]; rfl
      · have := ih (List.mem_map.mpr ⟨x, hx, hxk⟩)
        rw [hr] at this
        simp at this
    · rfl

theorem dictGet_of_nodup_mem (r : Rec) (k : String) (v : Cell)
    (hnd : (r.map Prod.fst).Nodup) (hmem : (k, v) ∈ r) : dictGet r k = some v := by
  induction r with
  | nil => simp at hmem
  | cons p rest ih =>
    simp only [List.map_cons, List.nodup_cons] at hnd
    rcases List.mem_cons.mp hmem with hm | hm
    · have hknotrest : k ∉ rest.map Prod.fst := by
        rw [← hm] at hnd
        exact hnd.1
      show (match dictGet rest k with
            | some w => some w
            | none => if p.1 = k then some p.2 else none) = some v
      rw [dictGet_none_of_not_mem rest k hknotrest, ← hm]
      simp
    · have : dictGet rest k = some v := ih hnd.2 hm
      show (match dictGet rest k with
            | some w => some w
            | none => if p.1 = k then some p.2 else none) = some v
      rw [this]

theorem rowRecord_keys (t : Table) (i : Nat) :
    (rowRecord t i).map Prod.fst = t.names := by
  simp [rowRecord, Table.names, List.map_map]

theorem rowRecord_append (cs ds : List (String × List Cell)) (i : Nat) :
    rowRecord ⟨cs ++ ds⟩ i = rowRecord ⟨cs⟩ i ++ rowRecord ⟨ds⟩ i := by
  simp [rowRecord]

theorem replicate_getD (n i : Nat) (d e : Cell) (h : i < n) :
    (List.replicate n d).getD i e = d := by
  induction n generalizing i with
  | zero => omega
  | succ m ih =>
    cases i with
    | zero => rfl
    | succ j =>
      show (List.replicate m d).getD j e = d
      exact ih j (by omega)

theorem normBool_yes_or_no (c : Cell) :
    normBool c = Cell.str "YES" ∨ normBool c = Cell.str "NO" := by
  unfold normBool boolFinal
  split
  · exact Or.inl rfl
  · exact Or.inr rfl

theorem normBool_na : normBool Cell.na = Cell.str "NO" := by decide

theorem normBool_bool (b : Bool) : normBool (Cell.bool b) = Cell.str "NO" := by
  cases b <;> decide

theorem normBool_int (n : Int) : normBool (Cell.int n) = Cell.str "NO" := rfl

theorem normBool_str (s : String) :
    normBool (Cell.str s) =
      Cell.str (if pyUpper s = "YES" ∨ pyUpper s = "Y" then "YES" else "NO") := by
  unfold normBool fillna strUpper boolFinal
  simp only
  by_cases h : pyUpper s = "YES" ∨ pyUpper s = "Y"
  · rw [if_pos h, if_pos]
    rcases h with h | h <;> rw [h]
    · exact Or.inl rfl
    · exact Or.inr (Or.inl rfl)
  · rw [if_neg h, if_neg]
    rintro (hc | hc | hc)
    · exact h (Or.inl (Cell.str.inj hc))
    · exact h (Or.inr (Cell.str.inj hc))
    · exact Cell.noConfusion hc

theorem normNum_is_int (c : Cell) : ∃ n : Int, normNum c = Cell.int n := by
  unfold normNum fillna
  cases h : toNumeric c with
  | na => exact ⟨0, rfl⟩
  | str s =>
    exfalso
    unfold toNumeric at h
    cases c <;> simp at h
    split at h <;> simp at h
  | bool b =>
    exfalso
    unfold toNumeric at h
    cases c <;> simp at h
    split at h <;> simp at h
  | int n => exact ⟨n, rfl⟩

theorem normNum_unparsable (c : Cell) (h : toNumeric c = Cell.na) :
    normNum c = Cell.int 0 := by
  unfold normNum
  rw [h]
  rfl

theorem convertTable_nRows (t : Table) : (convertTable t).nRows = t.nRows := by
  unfold convertTable
  rw [backfill_nRows, renameCols_nRows, validate_nRows]

theorem toRecords_length (u : Table) : (toRecords u).length = u.nRows := by
  simp [toRecords]

theorem toRecords_eq_nil (u : Table) (h : u.nRows = 0) : toRecords u = [] := by
  unfold toRecords
  rw [h]
  rfl

theorem toRecords_getD (u : Table) (i : Nat) (h : i < u.nRows) :
    (toRecords u).getD i [] = rowRecord u i := by
  unfold toRecords
  rw [List.getD_eq_getElem?_getD, List.getElem?_map, List.getElem?_range h]
  rfl

theorem mem_toRecords (u : Table) (r : Rec) (h : r ∈ toRecords u) :
    ∃ i, i < u.nRows ∧ r = rowRecord u i := by
  unfold toRecords at h
  rcases List.mem_map.mp h with ⟨i, hi, hr⟩
  exact ⟨i, List.mem_range.mp hi, hr.symm⟩

theorem getColAux_mem (name : String) (cols : List (String × List Cell))
    (h : name ∈ cols.map Prod.fst) : (name, getColAux name cols) ∈ cols := by
  induction cols with
  | nil => simp at h
  | cons c rest ih =>
    by_cases hc : c.1 = name
    · rw [show getColAux name (c :: rest) = c.2 from by rw [getColAux, if_pos hc]]
      exact List.mem_cons.mpr (Or.inl (by rw [← hc]))
    · rw [show getColAux name (c :: rest) = getColAux name rest from by
        rw [getColAux, if_neg hc]]
      rcases List.mem_map.mp h with ⟨x, hx, hxn⟩
      rcases List.mem_cons.mp hx with hx | hx
      · exact absurd (hx ▸ hxn) hc
      · exact List.mem_cons.mpr (Or.inr (ih (List.mem_map.mpr ⟨x, hx, hxn⟩)))

set_option maxHeartbeats 2000000 in
theorem required_properties_nodup : required_properties.Nodup := by decide

set_option maxHeartbeats 2000000 in
theorem stageName_not_bool : "Stage Name" ∉ boolean_columns := by decide

set_option maxHeartbeats 2000000 in
theorem stageName_not_num : "Stage Name" ∉ numeric_columns := by decide

theorem dictGet_map_keyed (l : List String) (g : String → Cell) (p : String)
    (hnd : l.Nodup) (hp : p ∈ l) :
    dictGet (l.map (fun q => (q, g q))) p = some (g p) := by
  apply dictGet_of_nodup_mem
  · rw [List.map_map, show (Prod.fst ∘ fun q => (q, g q)) = id from rfl, List.map_id]
    exact hnd
  · exact List.mem_map.mpr ⟨p, hp, rfl⟩

set_option maxHeartbeats 2000000 in
set_option maxRecDepth 8000 in
theorem backfill_default_value (w : Table) (p : String)
    (hp : p ∈ required_properties) (hmiss : p ∉ w.names)
    (i : Nat) (hi : i < w.nRows) :
    dictGet (rowRecord (backfill w) i) p = some (defaultFor p) := by
  have hrr : rowRecord (backfill w) i
      = rowRecord w i ++ (required_properties.filter (fun q => q ∉ w.names)).map
          (fun q => (q, (List.replicate w.nRows (defaultFor q)).getD i Cell.na)) := by
    show (backfill w).cols.map (fun c => (c.1, c.2.getD i Cell.na)) = _
    rw [backfill_eq, List.map_append, List.map_map]
    rfl
  rw [hrr, dictGet_append]
  have hmap : (required_properties.filter (fun q => q ∉ w.names)).map
        (fun q => (q, (List.replicate w.nRows (defaultFor q)).getD i Cell.na))
      = (required_properties.filter (fun q => q ∉ w.names)).map
        (fun q => (q, defaultFor q)) := by
    apply List.map_congr_left
    intro q _
    rw [replicate_getD _ _ _ _ hi]
  rw [hmap, dictGet_map_keyed _ _ p (required_properties_nodup.filter _)
    (List.mem_filter.mpr ⟨hp, by simpa using hmiss⟩)]


theorem dictGet_rowRecord_isSome (u : Table) (i : Nat) (p : String) (h : p ∈ u.names) :
    (dictGet (rowRecord u i) p).isSome := by
  apply dictGet_isSome_of_mem
  rw [rowRecord_keys]
  exact h

theorem convertTable_names_sup (t : Table) (p : String) (hp : p ∈ required_properties) :
    p ∈ (convertTable t).names :=
  required_mem_backfill_names (renameCols (validate_data t).1) p hp

set_option maxRecDepth 100000 in
theorem convertTable_records_all_present (t : Table) (r : Rec)
    (hr : r ∈ toRecords (convertTable t))
    (p : String) (hp : p ∈ required_properties) : (dictGet r p).isSome := by
  obtain ⟨i, hi, hre⟩ := mem_toRecords (convertTable t) r hr
  rw [hre]
  exact dictGet_rowRecord_isSome (convertTable t) i p (convertTable_names_sup t p hp)

set_option maxHeartbeats 1000000 in
theorem standardize_stageName : standardize_property_name "Stage Name" = "stageName" := by
  decide

theorem renameCols_mem (v : Table) (nm : String) (cs : List Cell)
    (h : (nm, cs) ∈ v.cols) :
    (standardize_property_name nm, cs) ∈ (renameCols v).cols := by
  unfold renameCols
  exact List.mem_map.mpr ⟨(nm, cs), h, rfl⟩

theorem dictGet_rowRecord_backfill (w : Table) (k : String) (i : Nat)
    (hnd : w.names.Nodup) (cs : List Cell)
    (hmem : (k, cs) ∈ w.cols) :
    dictGet (rowRecord (backfill w) i) k = some (cs.getD i Cell.na) := by
  have hk : k ∈ w.names := List.mem_map.mpr ⟨_, hmem, rfl⟩
  have hrr : rowRecord (backfill w) i
      = rowRecord w i ++ (required_properties.filter (fun q => q ∉ w.names)).map
          (fun q => (q, (List.replicate w.nRows (defaultFor q)).getD i Cell.na)) := by
    show (backfill w).cols.map (fun c => (c.1, c.2.getD i Cell.na)) = _
    rw [backfill_eq, List.map_append, List.map_map]
    rfl
  rw [hrr, dictGet_append]
  have hnone : dictGet ((required_properties.filter (fun q => q ∉ w.names)).map
      (fun q => (q, (List.replicate w.nRows (defaultFor q)).getD i Cell.na))) k = none := by
    apply dictGet_none_of_not_mem
    rw [List.map_map]
    intro hmm2
    rcases List.mem_map.mp hmm2 with ⟨q, hq, hqe⟩
    have hqk : q = k := hqe
    have hq2 := (List.mem_filter.mp hq).2
    rw [hqk] at hq2
    simp at hq2
    exact hq2 hk
  rw [hnone]
  exact dictGet_of_nodup_mem _ _ _ (by rw [rowRecord_keys]; exact hnd)
    (List.mem_map.mpr ⟨(k, cs), hmem, rfl⟩)

theorem stageName_roundtrip (t : Table)
    (hin : "Stage Name" ∈ t.names)
    (hN : (t.names.map standardize_property_name).Nodup)
    (i : Nat) (hi : i < t.nRows) :
    dictGet ((toRecords (convertTable t)).getD i []) "stageName"
      = some ((getCol t "Stage Name").getD i Cell.na) := by
  have hi' : i < (convertTable t).nRows := lt_of_lt_of_eq hi (convertTable_nRows t).symm
  have e1 : (toRecords (convertTable t)).getD i [] = rowRecord (convertTable t) i :=
    toRecords_getD (convertTable t) i hi'
  rw [e1]
  have hvu := validate_getCol_untouched t "Stage Name" stageName_not_bool stageName_not_num
  have hvin : "Stage Name" ∈ (validate_data t).1.names := by
    rw [validate_names]; exact hin
  have hmem_v : ("Stage Name", getCol (validate_data t).1 "Stage Name")
      ∈ (validate_data t).1.cols := getColAux_mem _ _ hvin
  have hmem_w := renameCols_mem (validate_data t).1 "Stage Name"
    (getCol (validate_data t).1 "Stage Name") hmem_v
  rw [standardize_stageName] at hmem_w
  have hwnd : (renameCols (validate_data t).1).names.Nodup := by
    rw [renameCols_names, validate_names]
    exact hN
  have e2 : dictGet (rowRecord (backfill (renameCols (validate_data t).1)) i) "stageName"
      = some ((getCol (validate_data t).1 "Stage Name").getD i Cell.na) :=
    dictGet_rowRecord_backfill (renameCols (validate_data t).1) "stageName" i hwnd
      (getCol (validate_data t).1 "Stage Name") hmem_w
  rw [hvu] at e2
  exact e2

theorem char_le_val_iff (k : Nat) (c : Char) (hk : k < 4294967296) :
    ((UInt32.ofNat k) ≤ c.val) ↔ (k ≤ c.toNat) := by
  rw [UInt32.le_def, BitVec.le_def]
  have h2 : (UInt32.ofNat k).toBitVec.toNat = k := UInt32.toBitVec_eq_of_lt hk
  rw [h2]
  exact Iff.rfl

theorem char_val_le_iff (k : Nat) (c : Char) (hk : k < 4294967296) :
    (c.val ≤ (UInt32.ofNat k)) ↔ (c.toNat ≤ k) := by
  rw [UInt32.le_def, BitVec.le_def]
  have h2 : (UInt32.ofNat k).toBitVec.toNat = k := UInt32.toBitVec_eq_of_lt hk
  rw [h2]
  exact Iff.rfl

theorem isUpper_iff (c : Char) : c.isUpper = true ↔ 65 ≤ c.toNat ∧ c.toNat ≤ 90 := by
  show ((c.val ≥ 65 : Bool) && (c.val ≤ 90 : Bool)) = true ↔ _
  rw [Bool.and_eq_true, decide_eq_true_iff, decide_eq_true_iff]
  rw [show (65 : UInt32) = UInt32.ofNat 65 from rfl, show (90 : UInt32) = UInt32.ofNat 90 from rfl,
    ge_iff_le]
  rw [char_le_val_iff 65 c (by norm_num), char_val_le_iff 90 c (by norm_num)]

theorem isLower_iff (c : Char) : c.isLower = true ↔ 97 ≤ c.toNat ∧ c.toNat ≤ 122 := by
  show ((c.val ≥ 97 : Bool) && (c.val ≤ 122 : Bool)) = true ↔ _
  rw [Bool.and_eq_true, decide_eq_true_iff, decide_eq_true_iff]
  rw [show (97 : UInt32) = UInt32.ofNat 97 from rfl, show (122 : UInt32) = UInt32.ofNat 122 from rfl,
    ge_iff_le]
  rw [char_le_val_iff 97 c (by norm_num), char_val_le_iff 122 c (by norm_num)]

theorem isDigit_iff (c : Char) : c.isDigit = true ↔ 48 ≤ c.toNat ∧ c.toNat ≤ 57 := by
  show ((c.val ≥ 48 : Bool) && (c.val ≤ 57 : Bool)) = true ↔ _
  rw [Bool.and_eq_true, decide_eq_true_iff, decide_eq_true_iff]
  rw [show (48 : UInt32) = UInt32.ofNat 48 from rfl, show (57 : UInt32) = UInt32.ofNat 57 from rfl,
    ge_iff_le]
  rw [char_le_val_iff 48 c (by norm_num), char_val_le_iff 57 c (by norm_num)]

theorem isAlphanum_iff (c : Char) : c.isAlphanum = true ↔
    (65 ≤ c.toNat ∧ c.toNat ≤ 90) ∨ (97 ≤ c.toNat ∧ c.toNat ≤ 122) ∨
    (48 ≤ c.toNat ∧ c.toNat ≤ 57) := by
  show (((c.isUpper || c.isLower) || c.isDigit) = true) ↔ _
  rw [Bool.or_eq_true, Bool.or_eq_true, isUpper_iff, isLower_iff, isDigit_iff, or_assoc]

theorem toNat_ofNat_valid (m : Nat) (h : m < 55296) : (Char.ofNat m).toNat = m := by
  unfold Char.ofNat
  rw [dif_pos (Or.inl h)]
  rfl

theorem isAlphanum_toLower (c : Char) (h : c.isAlphanum = true) :
    c.toLower.isAlphanum = true := by
  unfold Char.toLower
  show (if c.toNat ≥ 65 ∧ c.toNat ≤ 90 then Char.ofNat (c.toNat + 32) else c).isAlphanum = true
  split
  · rename_i hn
    rw [isAlphanum_iff, toNat_ofNat_valid (c.toNat + 32) (by omega)]
    right
    left
    omega
  · exact h

theorem isAlphanum_toUpper (c : Char) (h : c.isAlphanum = true) :
    c.toUpper.isAlphanum = true := by
  unfold Char.toUpper
  show (if c.toNat ≥ 97 ∧ c.toNat ≤ 122 then Char.ofNat (c.toNat - 32) else c).isAlphanum = true
  split
  · rename_i hn
    rw [isAlphanum_iff, toNat_ofNat_valid (c.toNat - 32) (by omega)]
    left
    omega
  · exact h

theorem mem_underscoreSplit (l : List Char) :
    ∀ (w : List Char) (c : Char), w ∈ underscoreSplit l → c ∈ w → c ∈ l ∧ c ≠ '_' := by
  induction l with
  | nil =>
    intro w c hw hc
    simp only [underscoreSplit, List.mem_singleton] at hw
    subst hw
    simp at hc
  | cons a rest ih =>
    intro w c hw hc
    rw [underscoreSplit] at hw
    rcases hs : underscoreSplit rest with _ | ⟨w', ws⟩
    · rw [hs] at hw
      have hw2 : w ∈ [([] : List Char)] := hw
      simp only [List.mem_singleton] at hw2
      subst hw2
      simp at hc
    · rw [hs] at hw
      have hw2 : w ∈ (if a = '_' then [] :: w' :: ws else (a :: w') :: ws) := hw
      by_cases ha : a = '_'
      · rw [if_pos ha] at hw2
        rcases List.mem_cons.mp hw2 with hw3 | hw3
        · subst hw3; simp at hc
        · have := ih w c (by rw [hs]; exact hw3) hc
          exact ⟨List.mem_cons_of_mem a this.1, this.2⟩
      · rw [if_neg ha] at hw2
        rcases List.mem_cons.mp hw2 with hw3 | hw3
        · subst hw3
          rcases List.mem_cons.mp hc with hc2 | hc2
          · rw [hc2]; exact ⟨List.mem_cons_self a rest, ha⟩
          · have := ih w' c (by rw [hs]; exact List.mem_cons_self w' ws) hc2
            exact ⟨List.mem_cons_of_mem a this.1, this.2⟩
        · have := ih w c (by rw [hs]; exact List.mem_cons_of_mem w' hw3) hc
          exact ⟨List.mem_cons_of_mem a this.1, this.2⟩

theorem mem_replaced (name : List Char) (d : Char)
    (hd : d ∈ name.map (fun c => if c.isAlphanum then c else '_')) (hne : d ≠ '_') :
    d.isAlphanum = true := by
  rcases List.mem_map.mp hd with ⟨e, _, hde⟩
  by_cases ha : e.isAlphanum
  · rw [if_pos ha] at hde
    exact hde ▸ ha
  · rw [if_neg ha] at hde
    exact absurd hde.symm hne

theorem pyCapitalize_alnum (v : List Char) (hv : ∀ d ∈ v, d.isAlphanum = true)
    (c : Char) (hc : c ∈ pyCapitalize v) : c.isAlphanum = true := by
  cases v with
  | nil => simp [pyCapitalize] at hc
  | cons v0 vs =>
    rcases List.mem_cons.mp hc with hc | hc
    · subst hc
      exact isAlphanum_toUpper v0 (hv v0 (List.mem_cons_self v0 vs))
    · rcases List.mem_map.mp hc with ⟨d, hd, hdc⟩
      exact hdc ▸ isAlphanum_toLower d (hv d (List.mem_cons_of_mem v0 hd))

theorem genericCamel_alnum (name : List Char) (c : Char) (hc : c ∈ genericCamel name) :
    c.isAlphanum = true := by
  simp only [genericCamel] at hc
  rcases hs : underscoreSplit (name.map (fun c => if c.isAlphanum then c else '_'))
      with _ | ⟨w, ws⟩
  · rw [hs] at hc
    have hc2 : c ∈ ([] : List Char) := hc
    simp at hc2
  · rw [hs] at hc
    have hc3 : c ∈ w.map Char.toLower
        ++ ((ws.filter (fun x => x ≠ [])).map pyCapitalize).flatten := hc
    rcases List.mem_append.mp hc3 with hc | hc
    · rcases List.mem_map.mp hc with ⟨d, hd, hdc⟩
      have hmem := mem_underscoreSplit _ w d (by rw [hs]; exact List.mem_cons_self w ws) hd
      exact hdc ▸ isAlphanum_toLower d (mem_replaced name d hmem.1 hmem.2)
    · rcases List.mem_flatten.mp hc with ⟨piece, hpiece, hcp⟩
      rcases List.mem_map.mp hpiece with ⟨v, hv, hvp⟩
      have hvws : v ∈ ws := List.mem_of_mem_filter hv
      apply pyCapitalize_alnum v _ c (hvp ▸ hcp)
      intro d hd
      have hmem := mem_underscoreSplit _ v d
        (by rw [hs]; exact List.mem_cons_of_mem w hvws) hd
      exact mem_replaced name d hmem.1 hmem.2

theorem standardize_eq_generic (y : String) (h : special_cases.lookup y = none) :
    standardize_property_name y = String.mk (genericCamel y.toList) := by
  unfold standardize_property_name
  rw [h]

theorem standardize_alnum (name : String) (hn : special_cases.lookup name = none) :
    ∀ c ∈ (standardize_property_name name).toList, c.isAlphanum = true := by
  rw [standardize_eq_generic name hn]
  intro c hc
  exact genericCamel_alnum name.toList c hc


theorem no_underscore_split (l : List Char) (h : '_' ∉ l) : underscoreSplit l = [l] := by
  induction l with
  | nil => rfl
  | cons a rest ih =>
    have ha : a ≠ '_' := fun he => h (he ▸ List.mem_cons_self a rest)
    have hrest : '_' ∉ rest := fun hm => h (List.mem_cons_of_mem a hm)
    rw [underscoreSplit, ih hrest]
    simp only
    rw [if_neg (fun he => ha he)]

theorem genericCamel_of_alnum (y : List Char) (hy : ∀ c ∈ y, c.isAlphanum = true) :
    genericCamel y = y.map Char.toLower := by
  have hrep : y.map (fun c => if c.isAlphanum then c else '_') = y := by
    rw [show y.map (fun c => if c.isAlphanum then c else '_')
        = y.map (fun c => c) from List.map_congr_left (fun c hc => if_pos (hy c hc))]
    exact List.map_id' y
  have hnou : '_' ∉ y := by
    intro hm
    have := hy _ hm
    simp at this
  unfold genericCamel
  rw [hrep]
  show (match underscoreSplit y with
        | [] => []
        | w :: ws => w.map Char.toLower
            ++ ((ws.filter (fun x => x ≠ [])).map pyCapitalize).flatten)
      = y.map Char.toLower
  rw [no_underscore_split y hnou]
  show y.map Char.toLower
      ++ ((([] : List (List Char)).filter (fun x => x ≠ [])).map pyCapitalize).flatten
      = y.map Char.toLower
  simp

set_option maxHeartbeats 2000000 in
theorem special_keys_not_all_alnum :
    ∀ p ∈ special_cases, (p.1.toList.all Char.isAlphanum) = false := by decide

theorem lookup_none_of_ne (l : List (String × String)) (a : String)
    (h : ∀ p ∈ l, p.1 ≠ a) : l.lookup a = none := by
  induction l with
  | nil => rfl
  | cons p rest ih =>
    have hne : ¬ (a == p.1) = true := by
      intro hb
      exact h p (List.mem_cons_self p rest) (beq_iff_eq.mp hb).symm
    show (match a == p.1 with
          | true => some p.2
          | false => rest.lookup a) = none
    rw [Bool.eq_false_iff.mpr hne]
    exact ih (fun q hq => h q (List.mem_cons_of_mem p hq))

theorem standardize_output_not_special (name : String)
    (hn : special_cases.lookup name = none) :
    special_cases.lookup (standardize_property_name name) = none := by
  apply lookup_none_of_ne
  intro p hp he
  have hall := special_keys_not_all_alnum p hp
  rw [he] at hall
  have hgood : ((standardize_property_name name).toList.all Char.isAlphanum) = true :=
    List.all_eq_true.mpr (fun c hc => standardize_alnum name hn c hc)
  rw [hgood] at hall
  exact Bool.noConfusion hall

theorem standardize_idem_toLower (name : String)
    (hn : special_cases.lookup name = none) :
    standardize_property_name (standardize_property_name name)
      = String.mk ((standardize_property_name name).toList.map Char.toLower) := by
  rw [standardize_eq_generic _ (standardize_output_not_special name hn),
    genericCamel_of_alnum _ (standardize_alnum name hn)]

theorem convert_eq_run (input out : String) (env : Env) (t : Table)
    (hr : env.readResult = Except.ok t) :
    convert_excel_to_js input out env = convertRun input out t env.writeResult := by
  unfold convert_excel_to_js
  rw [hr]

theorem convert_read_fnf (input out : String) (env : Env)
    (h : env.readResult = Except.error PyExc.fileNotFound) :
    convert_excel_to_js input out env
      = ⟨[Msg.banner, Msg.reading input, Msg.errFileNotFound input], [], some 1⟩ := by
  unfold convert_excel_to_js
  rw [h]
  rfl

theorem convertRun_write_fnf (input out : String) (df : Table) :
    Msg.errFileNotFound input ∈ (convertRun input out df (Except.error PyExc.fileNotFound)).msgs ∧
    (convertRun input out df (Except.error PyExc.fileNotFound)).exitCode = some 1 := by
  constructor
  · show Msg.errFileNotFound input ∈ progressMsgs input df ++ [Msg.errFileNotFound input]
    exact List.mem_append_right _ (List.mem_singleton.mpr rfl)
  · rfl

theorem convert_write_fnf (input out : String) (env : Env) (t : Table)
    (hr : env.readResult = Except.ok t)
    (hw : env.writeResult = Except.error PyExc.fileNotFound) :
    Msg.errFileNotFound input ∈ (convert_excel_to_js input out env).msgs ∧
    (convert_excel_to_js input out env).exitCode = some 1 := by
  rw [convert_eq_run input out env t hr, hw]
  exact convertRun_write_fnf input out t

theorem convertRun_ok_eq (input out : String) (df : Table) :
    convertRun input out df (Except.ok ()) =
      (if (toRecords (backfill (renameCols (validate_data df).1))).any hasStrRoundCount then
        ⟨progressMsgs input df ++ [Msg.success out]
            ++ [countsMsg (toRecords (backfill (renameCols (validate_data df).1)))]
            ++ [Msg.errOther PyExc.typeError],
         [(out, toRecords (backfill (renameCols (validate_data df).1)))], some 1⟩
      else if (toRecords (backfill (renameCols (validate_data df).1))).length = 0 then
        ⟨progressMsgs input df ++ [Msg.success out]
            ++ [countsMsg (toRecords (backfill (renameCols (validate_data df).1)))]
            ++ [Msg.errOther PyExc.zeroDivision],
         [(out, toRecords (backfill (renameCols (validate_data df).1)))], some 1⟩
      else
        ⟨progressMsgs input df ++ [Msg.success out]
            ++ [countsMsg (toRecords (backfill (renameCols (validate_data df).1)))]
            ++ [Msg.summaryAverage],
         [(out, toRecords (backfill (renameCols (validate_data df).1)))], none⟩) := rfl

theorem convertRun_ok_written (input out : String) (df : Table) :
    (convertRun input out df (Except.ok ())).written
      = [(out, toRecords (backfill (renameCols (validate_data df).1)))] := by
  rw [convertRun_ok_eq]
  split
  · rfl
  · split <;> rfl

theorem convert_written_ok (input out : String) (env : Env) (t : Table)
    (hr : env.readResult = Except.ok t) (hw : env.writeResult = Except.ok ()) :
    (convert_excel_to_js input out env).written
      = [(out, toRecords (backfill (renameCols (validate_data t).1)))] := by
  rw [convert_eq_run input out env t hr, hw]
  exact convertRun_ok_written input out t

theorem convertRun_empty (input out : String) (df : Table) (h : df.nRows = 0) :
    (convertRun input out df (Except.ok ())).written = [(out, [])] ∧
    Msg.success out ∈ (convertRun input out df (Except.ok ())).msgs ∧
    (convertRun input out df (Except.ok ())).exitCode = some 1 := by
  have hdata : toRecords (backfill (renameCols (validate_data df).1)) = [] :=
    toRecords_eq_nil (convertTable df) ((convertTable_nRows df).trans h)
  rw [convertRun_ok_eq, hdata]
  rw [if_neg (by simp), if_pos (show ([] : List Rec).length = 0 from rfl)]
  refine ⟨rfl, ?_, rfl⟩
  show Msg.success out ∈ progressMsgs input df ++ [Msg.success out]
      ++ [countsMsg []] ++ [Msg.errOther PyExc.zeroDivision]
  refine List.mem_append_left _ (List.mem_append_left _ (List.mem_append_right _ ?_))
  exact List.mem_singleton.mpr rfl

/-! ## Claim theorems, counterexamples and witnesses -/
/-! ## C1 -/

set_option maxRecDepth 20000 in
/-- Claim C1 counterexample: a run that succeeds (exit status 0) whose single
output record carries a missing value (`NaN`) in `stageName`, because the
`Stage Name` column is present in the input with a missing cell and the
validator only warns about important columns without fixing them.  This
refutes the claim that no null/missing value survives normalization in a
successful run. -/
theorem C1_counterexample :
    runNaStage.exitCode = none ∧
    dictGet ((runNaStage.written.headD ("", [])).2.headD []) "stageName"
      = some Cell.na := by
  constructor
  · decide
  · decide

/-- Claim C1 (amended): in the serialized output of the conversion pipeline,
every record has every one of the 22 required schema properties PRESENT; but
presence is all that is guaranteed — missing cells of input columns that the
validator does not touch (such as `Stage Name`, `Stage Identifier`,
`Scoring Type` when present with missing cells) survive as missing values. -/
theorem C1_theorem (t : Table) (r : Rec) (hr : r ∈ toRecords (convertTable t))
    (p : String) (hp : p ∈ required_properties) : (dictGet r p).isSome :=
  convertTable_records_all_present t r hr p hp

set_option maxRecDepth 20000 in
/-- Witness for C1 at a concrete one-row table. -/
theorem C1_witness :
    (dictGet ((toRecords (convertTable tOneRow)).headD []) "stageName").isSome :=
  C1_theorem tOneRow ((toRecords (convertTable tOneRow)).headD [])
    (by decide) "stageName" (by decide)

/-! ## C2 -/

/-- Claim C2 counterexample: in a boolean column, an input cell holding the
boolean `true` normalizes to `"NO"`, not `"YES"`: `Series.str.upper` turns
every non-string entry into missing before the `x == "YES" or x == "Y" or
x is True` lambda runs, so the `x is True` test can never fire.  (The column
also holds a string so that, as in pandas, it is an object-dtype series.) -/
theorem C2_counterexample :
    (getCol (validate_data ⟨[("Indoor", [Cell.str "x", Cell.bool true])]⟩).1
        "Indoor").getD 1 Cell.na = Cell.str "NO" ∧
    Cell.str "NO" ≠ Cell.str "YES" := by
  constructor
  · decide
  · decide

/-- Claim C2 (amended): for a boolean column present in the input,
`validate_data` maps every cell through `normBool`; the result is always
exactly `"YES"` or `"NO"` (never missing, never another string); missing
cells become `"NO"`; a string cell becomes `"YES"` exactly when it
upper-cases to `"YES"` or `"Y"`; and every non-string cell — including the
boolean `true` — becomes `"NO"`, because upper-casing turns it into missing
first. -/
theorem C2_theorem (t : Table) (col : String)
    (h : col ∈ boolean_columns) (hin : col ∈ t.names) :
    getCol (validate_data t).1 col = (getCol t col).map normBool ∧
    (∀ c, normBool c = Cell.str "YES" ∨ normBool c = Cell.str "NO") ∧
    normBool Cell.na = Cell.str "NO" ∧
    (∀ b, normBool (Cell.bool b) = Cell.str "NO") ∧
    (∀ s, normBool (Cell.str s)
      = Cell.str (if pyUpper s = "YES" ∨ pyUpper s = "Y" then "YES" else "NO")) ∧
    (∀ n : Int, normBool (Cell.int n) = Cell.str "NO") :=
  ⟨validate_getCol_bool t col h hin, normBool_yes_or_no, normBool_na,
    normBool_bool, normBool_str, normBool_int⟩

/-- Witness for C2 at a concrete table with a missing `Indoor` cell. -/
theorem C2_witness :
    getCol (validate_data ⟨[("Indoor", [Cell.na])]⟩).1 "Indoor"
      = [Cell.na].map normBool ∧
    normBool Cell.na = Cell.str "NO" :=
  ⟨(C2_theorem ⟨[("Indoor", [Cell.na])]⟩ "Indoor" (by decide) (by decide)).1,
   (C2_theorem ⟨[("Indoor", [Cell.na])]⟩ "Indoor" (by decide) (by decide)).2.2.1⟩

/-! ## C3 -/

/-- Claim C3 counterexample: the numeric normalization is not non-negative:
the parsable string `"-3"` in the `Width` column normalizes to the negative
integer `-3`; nothing in the code clamps negative values. -/
theorem C3_counterexample :
    getCol (validate_data ⟨[("Width", [Cell.str "-3"])]⟩).1 "Width"
      = [Cell.int (-3)] ∧
    (-3 : Int) < 0 := by
  constructor
  · decide
  · decide

/-- Claim C3 (amended): for a numeric column present in the input,
`validate_data` maps every cell through `normNum`; the result is always an
integer (possibly negative — the sign of parsable input is preserved), and
every cell unparsable as a number (coerced to missing by `to_numeric`)
normalizes to 0. -/
theorem C3_theorem (t : Table) (col : String)
    (h : col ∈ numeric_columns) (hin : col ∈ t.names) :
    getCol (validate_data t).1 col = (getCol t col).map normNum ∧
    (∀ c, ∃ n : Int, normNum c = Cell.int n) ∧
    (∀ c, toNumeric c = Cell.na → normNum c = Cell.int 0) :=
  ⟨validate_getCol_num t col h hin, normNum_is_int, normNum_unparsable⟩

/-- Witness for C3 at a concrete table. -/
theorem C3_witness :
    getCol (validate_data ⟨[("Width", [Cell.str "abc"])]⟩).1 "Width"
      = [Cell.str "abc"].map normNum ∧
    normNum (Cell.str "abc") = Cell.int 0 :=
  ⟨(C3_theorem ⟨[("Width", [Cell.str "abc"])]⟩ "Width" (by decide) (by decide)).1,
   (C3_theorem ⟨[("Width", [Cell.str "abc"])]⟩ "Width" (by decide) (by decide)).2.2
     (Cell.str "abc") (by decide)⟩

/-! ## C4 -/

set_option maxHeartbeats 1000000 in
/-- Claim C4 counterexample: the generic camelCase standardizer is NOT
idempotent: `"foo bar"` (not in the special-case table) maps to `"fooBar"`,
and applying the standardizer to `"fooBar"` yields `"foobar"`, a different
name — re-application lower-cases the capitals the first pass introduced. -/
theorem C4_counterexample :
    special_cases.lookup "foo bar" = none ∧
    standardize_property_name "foo bar" = "fooBar" ∧
    standardize_property_name (standardize_property_name "foo bar")
      ≠ standardize_property_name "foo bar" := by
  refine ⟨rfl, rfl, ?_⟩
  decide

/-- Claim C4 (amended): for every header not in the special-case table the
standardizer (a pure function, hence deterministic) returns a name whose
characters are all alphanumeric — no separator characters survive — and
applying it a second time returns the LOWERCASED first output (so it is
idempotent exactly on headers whose standardized form has no upper-case
letter, and not idempotent in general). -/
theorem C4_theorem (name : String) (hn : special_cases.lookup name = none) :
    (∀ c ∈ (standardize_property_name name).toList, c.isAlphanum = true) ∧
    standardize_property_name (standardize_property_name name)
      = String.mk ((standardize_property_name name).toList.map Char.toLower) :=
  ⟨standardize_alnum name hn, standardize_idem_toLower name hn⟩

set_option maxHeartbeats 1000000 in
/-- Witness for C4 at the concrete header string `"foo bar"`. -/
theorem C4_witness :
    standardize_property_name (standardize_property_name "foo bar")
      = String.mk ((standardize_property_name "foo bar").toList.map Char.toLower) :=
  ( C4_theorem "foo bar" (by decide)).2

/-! ## C5 -/

/-- Claim C5 counterexample: the fixed schema has 22 required properties, not
21 as the claim states (`required_properties` lists 22 names, matching the 22
attributes of the data model). -/
theorem C5_counterexample :
    required_properties.length = 22 ∧ ¬ (required_properties.length = 21) := by
  constructor
  · rfl
  · decide

/-- Claim C5 (amended): after renaming, every one of the 22 required
properties missing from the renamed table is added to every output record
with its documented default: 0 for the numeric-typed properties,
`"COMSTOCK"` for scoringType, `"Unknown"` for stageName and stageIdentifier,
and `"NO"` for every other property (`defaultFor` is exactly the code's
default table). -/
theorem C5_theorem (t : Table) (p : String)
    (hp : p ∈ required_properties)
    (hmiss : p ∉ (renameCols (validate_data t).1).names)
    (r : Rec) (hr : r ∈ toRecords (convertTable t)) :
    dictGet r p = some (defaultFor p) := by
  obtain ⟨i, hi, hre⟩ := mem_toRecords (convertTable t) r hr
  rw [hre]
  have e : (convertTable t).nRows = (renameCols (validate_data t).1).nRows :=
    (convertTable_nRows t).trans
      ((renameCols_nRows (validate_data t).1).trans (validate_nRows t)).symm
  exact backfill_default_value (renameCols (validate_data t).1) p hp hmiss i
    (lt_of_lt_of_eq hi e)

set_option maxRecDepth 20000 in
/-- Witness for C5: the input lacks a `Width` column entirely, and the output
record carries `width` = 0 (the documented numeric default). -/
theorem C5_witness :
    dictGet ((toRecords (convertTable tOneRow)).headD []) "width"
      = some (defaultFor "width") :=
  C5_theorem tOneRow "width" (by decide) (by decide)
    ((toRecords (convertTable tOneRow)).headD []) (by decide)

/-! ## C6 -/

/-- Claim C6 counterexample: the cell `"abc"` in the `Width` column is
unparsable and is coerced to 0, yet NO missing-values warning is logged at
all (the logged count is the count of cells that were missing BEFORE
coercion, and `"abc"` is not missing), refuting the claim that the logged
count equals the number of values coerced to 0. -/
theorem C6_counterexample :
    validate_data ⟨[("Width", [Cell.str "abc"])]⟩
      = (⟨[("Width", [Cell.int 0])]⟩, []) := by
  decide

/-- Claim C6 (amended): for a numeric column present in the input, every cell
is normalized with `normNum` (unparsable cells coerce to 0), and the
missing-values warning for the column is logged exactly when the column had
missing cells BEFORE coercion, carrying exactly that count — cells unparsable
but not missing are coerced to 0 without being counted. -/
theorem C6_theorem (t : Table) (col : String)
    (h : col ∈ numeric_columns) (hin : col ∈ t.names) :
    getCol (validate_data t).1 col = (getCol t col).map normNum ∧
    (∀ k, Issue.missingNum col k ∈ (validate_data t).2 ↔
      (k = (getCol t col).countP Cell.isna ∧ 0 < (getCol t col).countP Cell.isna)) :=
  ⟨validate_getCol_num t col h hin, fun k => validate_missingNum_iff t col k h hin⟩

/-- Witness for C6 at a column with one missing and one parsable cell. -/
theorem C6_witness :
    getCol (validate_data ⟨[("Width", [Cell.na, Cell.str "5"])]⟩).1 "Width"
      = [Cell.na, Cell.str "5"].map normNum ∧
    (Issue.missingNum "Width" 1 ∈ (validate_data ⟨[("Width", [Cell.na, Cell.str "5"])]⟩).2
      ↔ (1 = ([Cell.na, Cell.str "5"].countP Cell.isna)
          ∧ 0 < ([Cell.na, Cell.str "5"].countP Cell.isna))) :=
  ⟨(C6_theorem ⟨[("Width", [Cell.na, Cell.str "5"])]⟩ "Width" (by decide) (by decide)).1,
   (C6_theorem ⟨[("Width", [Cell.na, Cell.str "5"])]⟩ "Width" (by decide) (by decide)).2 1⟩

/-! ## C7 -/

/-- Claim C7 (confirmed): with the read and the write succeeding, the run
writes exactly one output file whose serialized array is the records of the
converted table; that array has exactly N entries for an N-row input; and row
order is preserved — value-level: whenever the input has a `Stage Name`
column and the renamed headers are distinct, output record `i` carries input
row `i`'s stage-name cell. -/
theorem C7_theorem (input out : String) (env : Env) (t : Table)
    (hr : env.readResult = Except.ok t) (hw : env.writeResult = Except.ok ()) :
    (convert_excel_to_js input out env).written = [(out, toRecords (convertTable t))] ∧
    (toRecords (convertTable t)).length = t.nRows ∧
    (∀ i, i < t.nRows → "Stage Name" ∈ t.names →
      (t.names.map standardize_property_name).Nodup →
      dictGet ((toRecords (convertTable t)).getD i []) "stageName"
        = some ((getCol t "Stage Name").getD i Cell.na)) := by
  refine ⟨convert_written_ok input out env t hr hw,
    (toRecords_length (convertTable t)).trans (convertTable_nRows t), ?_⟩
  intro i hi hin hN
  exact stageName_roundtrip t hin hN i hi

set_option maxRecDepth 40000 in
set_option maxHeartbeats 2000000 in
/-- Witness for C7 at a concrete two-row table and succeeding I/O. -/
theorem C7_witness :
    (convert_excel_to_js "in.xlsx" "out.js"
        ⟨Except.ok tTwoRows, Except.ok ()⟩).written
      = [("out.js", toRecords (convertTable tTwoRows))] ∧
    (toRecords (convertTable tTwoRows)).length = tTwoRows.nRows ∧
    dictGet ((toRecords (convertTable tTwoRows)).getD 1 []) "stageName"
      = some ((getCol tTwoRows "Stage Name").getD 1 Cell.na) := by
  have h := C7_theorem "in.xlsx" "out.js" ⟨Except.ok tTwoRows, Except.ok ()⟩ tTwoRows rfl rfl
  exact ⟨h.1, h.2.1, h.2.2 1 (by decide) (by decide) (by decide)⟩

/-! ## C8 -/

set_option maxRecDepth 20000 in
/-- Claim C8 counterexample: a run whose INPUT read succeeds but whose output
path raises `FileNotFoundError` (e.g. the output directory does not exist)
prints the very same `Error: File not found: <input path>` line — naming the
input path — and exits with 1.  The message is therefore not distinct to the
input-not-found condition. -/
theorem C8_counterexample :
    (⟨Except.ok tOneRow, Except.error PyExc.fileNotFound⟩ : Env).readResult
      = Except.ok tOneRow ∧
    Msg.errFileNotFound "in.xlsx" ∈ (convert_excel_to_js "in.xlsx" "bad/out.js"
        ⟨Except.ok tOneRow, Except.error PyExc.fileNotFound⟩).msgs ∧
    (convert_excel_to_js "in.xlsx" "bad/out.js"
        ⟨Except.ok tOneRow, Except.error PyExc.fileNotFound⟩).exitCode = some 1 := by
  refine ⟨rfl, ?_, rfl⟩
  decide

/-- Claim C8 (amended): when the input path does not resolve to a readable
file the program prints exactly the banner, the reading line and
`Error: File not found: <input path>` and exits with status 1; but the same
message — still naming the INPUT path — is also printed whenever any
`FileNotFoundError` escapes the conversion, in particular when opening the
output file fails, so the message is not exclusive to the input-not-found
condition. -/
theorem C8_theorem (input out : String) (env : Env) (t : Table) :
    (env.readResult = Except.error PyExc.fileNotFound →
      convert_excel_to_js input out env
        = ⟨[Msg.banner, Msg.reading input, Msg.errFileNotFound input], [], some 1⟩) ∧
    (env.readResult = Except.ok t → env.writeResult = Except.error PyExc.fileNotFound →
      Msg.errFileNotFound input ∈ (convert_excel_to_js input out env).msgs ∧
      (convert_excel_to_js input out env).exitCode = some 1) :=
  ⟨fun hr => convert_read_fnf input out env hr,
   fun hr hw => convert_write_fnf input out env t hr hw⟩

/-- Witness for C8 at a concrete environment whose input file is missing. -/
theorem C8_witness :
    convert_excel_to_js "missing.xlsx" "out.js"
        ⟨Except.error PyExc.fileNotFound, Except.ok ()⟩
      = ⟨[Msg.banner, Msg.reading "missing.xlsx", Msg.errFileNotFound "missing.xlsx"],
         [], some 1⟩ :=
  ( C8_theorem "missing.xlsx" "out.js" ⟨Except.error PyExc.fileNotFound, Except.ok ()⟩
    tOneRow).1 rfl

/-! ## C9 -/

/-- Claim C9 (confirmed): invoked with any argument count other than exactly
two positional arguments (`len(sys.argv) != 3`), the program prints the usage
line, exits with status 1, and writes no output file. -/
theorem C9_theorem (argv : List String) (env : Env) (h : argv.length ≠ 3) :
    mainEntry argv env = ⟨[Msg.usage], [], some 1⟩ := by
  unfold mainEntry
  rw [if_pos h]

/-- Witness for C9: one positional argument. -/
theorem C9_witness :
    mainEntry ["classifier_converter.py", "input.xlsx"]
        ⟨Except.ok tOneRow, Except.ok ()⟩
      = ⟨[Msg.usage], [], some 1⟩ :=
  C9_theorem ["classifier_converter.py", "input.xlsx"]
    ⟨Except.ok tOneRow, Except.ok ()⟩ (by decide)

/-! ## C10 -/

/-- Claim C10 (confirmed): for an input sheet with zero data rows whose read
and write succeed, the converter writes the complete (empty-array) output
file and prints the success message, and then exits with status 1: the
summary's average-round-count computation divides by the record count (zero),
and the resulting `ZeroDivisionError` is caught by the generic handler after
the file was already written.  A nonzero exit therefore does not imply that
no output file was produced. -/
theorem C10_theorem (input out : String) (env : Env) (t : Table)
    (hr : env.readResult = Except.ok t) (hw : env.writeResult = Except.ok ())
    (h0 : t.nRows = 0) :
    (convert_excel_to_js input out env).written = [(out, [])] ∧
    Msg.success out ∈ (convert_excel_to_js input out env).msgs ∧
    (convert_excel_to_js input out env).exitCode = some 1 := by
  rw [convert_eq_run input out env t hr, hw]
  exact convertRun_empty input out t h0

/-- Witness for C10 at a concrete zero-row table. -/
theorem C10_witness :
    (convert_excel_to_js "in.xlsx" "out.js" ⟨Except.ok tEmpty, Except.ok ()⟩).written
      = [("out.js", [])] ∧
    Msg.success "out.js" ∈ (convert_excel_to_js "in.xlsx" "out.js"
        ⟨Except.ok tEmpty, Except.ok ()⟩).msgs ∧
    (convert_excel_to_js "in.xlsx" "out.js"
        ⟨Except.ok tEmpty, Except.ok ()⟩).exitCode = some 1 :=
  C10_theorem "in.xlsx" "out.js" ⟨Except.ok tEmpty, Except.ok ()⟩ tEmpty rfl rfl rfl

end ExcelToJson
